import Mathlib

/-!
Shallow embedding of `clean_data.py` from the NOAA JFK airport weather
visibility repository.  The script is a single pandas pipeline:

  read_csv → replace '*'→NaN → precip 'T'→'0.00', dual-dot→NaN →
  per-cell float coercion (`tryconvert`) → visibility range nulling →
  resample('60min').last() → shift(1) → ffill(PressureTendency) →
  interpolate(linear) → drop first row → wind-direction sin/cos encoding →
  pressure-tendency one-hot encoding → output path derivation → to_csv →
  optional verbose statistics.

Cells are modelled as `Option ℚ` (`none` = NaN) after coercion and as
`Option String` before it; timestamps are minutes as `ℕ`; hourly buckets
are `t / 60`.  The two trigonometric derived columns live in `ℝ`.
-/

set_option autoImplicit false

/-! ### Numeric coercion (`tryconvert`, lines 17–25) -/

/-- Numeric value of a list of ASCII digit characters, most significant first. -/
def natOfDigits (l : List Char) : ℕ :=
  l.foldl (fun a c => 10 * a + (c.toNat - 48)) 0

/-- An unsigned decimal literal: digits with at most one decimal point,
not reduced to a lone dot. -/
def parseUnsigned (l : List Char) : Option ℚ :=
  match l.span (fun c => c != '.') with
  | (ip, []) =>
      if ip ≠ [] ∧ ip.all Char.isDigit then some ((natOfDigits ip : ℚ)) else none
  | (ip, _ :: fp) =>
      if fp.contains '.' then none
      else if ip = [] ∧ fp = [] then none
      else if ip.all Char.isDigit ∧ fp.all Char.isDigit then
        some ((natOfDigits ip : ℚ) + (natOfDigits fp : ℚ) / ((10 : ℚ) ^ fp.length))
      else none

/-- An optionally signed decimal literal. -/
def parseSigned (l : List Char) : Option ℚ :=
  match l with
  | '-' :: rest => (parseUnsigned rest).map (fun q => -q)
  | '+' :: rest => parseUnsigned rest
  | _ => parseUnsigned l

/-- ASCII whitespace, as stripped by Python float parsing. -/
def isSpaceChar (c : Char) : Bool :=
  c == ' ' || c == '\t' || c == '\n' || c == '\r'

/-- Strip leading and trailing whitespace from a character list. -/
def trimChars (l : List Char) : List Char :=
  ((l.dropWhile isSpaceChar).reverse.dropWhile isSpaceChar).reverse

/-- `np.float64(value)` on a string cell: parses a decimal literal
(after stripping surrounding whitespace, as Python float parsing does) or
raises, modelled as `Except Unit ℚ`. -/
def npFloat64 (s : String) : Except Unit ℚ :=
  match parseSigned (trimChars s.data) with
  | some q => Except.ok q
  | none => Except.error ()

/-- `tryconvert` (lines 17–25): `try: return np.float64(value) except: return np.nan`.
The exception branch becomes the missing marker `none`. -/
def tryconvert (s : String) : Option ℚ :=
  match npFloat64 s with
  | Except.ok q => some q
  | Except.error _ => none

/-- Cell-level coercion: a cell that is already NaN (missing) stays NaN
(`np.float64(nan) = nan`); a string cell goes through `tryconvert`. -/
def tryconvertCell (c : Option String) : Option ℚ :=
  match c with
  | none => none
  | some s => tryconvert s

/-! ### Value normalization (lines 50–54) -/

/-- Line 50: `replace(to_replace='*', value=np.nan)` on every column. -/
def replaceStar (c : Option String) : Option String :=
  if c = some "*" then none else c

/-- Number of decimal points in a string, `str.count('\\.')`. -/
def countDots (s : String) : ℕ :=
  s.toList.count '.'

/-- Line 52: `HOURLYPrecip.replace(to_replace='T', value='0.00')` — exact-match
cell replacement. -/
def replaceT (c : Option String) : Option String :=
  if c = some "T" then some "0.00" else c

/-- Line 54: cells of `HOURLYPrecip` whose dot count exceeds 1 become NaN
(`str.count` of a NaN cell is NaN, and `NaN > 1` is false, so missing cells
are untouched). -/
def dropDualDot (c : Option String) : Option String :=
  match c with
  | none => none
  | some s => if 1 < countDots s then none else some s

/-- The full precipitation normalization of lines 52–54 on one cell. -/
def normPrecip (c : Option String) : Option String :=
  dropDualDot (replaceT c)

/-! ### Visibility range nulling (line 61) -/

/-- Line 61: a visibility value strictly above 10 or strictly below 0 becomes NaN. -/
def visClipCell (c : Option ℚ) : Option ℚ :=
  match c with
  | none => none
  | some q => if 10 < q ∨ q < 0 then none else some q

def visClip (l : List (Option ℚ)) : List (Option ℚ) :=
  l.map visClipCell

/-! ### Resampling and shifting (line 64) -/

/-- The hourly bucket of a timestamp in minutes: `resample('60min')` groups by
the floor of the hour. -/
def bucketOf (t : ℕ) : ℕ := t / 60

/-- `Resampler.last()` for one bucket of one column: the last non-null entry
among the observations whose timestamp falls in bucket `b`, if any. -/
def bucketLast (ts : List ℕ) (col : List (Option ℚ)) (b : ℕ) : Option ℚ :=
  (((ts.zip col).filter (fun p => bucketOf p.1 == b)).filterMap Prod.snd).getLast?

/-- The buckets the resampled index ranges over: every hour from the smallest
to the largest observed bucket, inclusive (pandas emits empty buckets too). -/
def bucketList (ts : List ℕ) : List ℕ :=
  match ts with
  | [] => []
  | t :: rest =>
      let bs := (t :: rest).map bucketOf
      let lo := bs.foldl min (bucketOf t)
      let hi := bs.foldl max (bucketOf t)
      (List.range (hi - lo + 1)).map (fun i => i + lo)

/-- `resample('60min').last()` on one column. -/
def resampleCol (ts : List ℕ) (col : List (Option ℚ)) : List (Option ℚ) :=
  (bucketList ts).map (bucketLast ts col)

/-- `shift(periods=1)`: the first row becomes NaN, every other row takes the
previous row's value, the last value falls off; the length is unchanged. -/
def shift1 (l : List (Option ℚ)) : List (Option ℚ) :=
  match l with
  | [] => []
  | _ => none :: l.dropLast

/-! ### Gap filling (lines 67–68) -/

/-- Forward fill, parameterized by the last valid value seen so far. -/
def ffillGo (prev : Option ℚ) : List (Option ℚ) → List (Option ℚ)
  | [] => []
  | none :: rest => prev :: ffillGo prev rest
  | some v :: rest => some v :: ffillGo (some v) rest

/-- Line 67: `fillna(method='ffill')` — propagate the last valid observation
forward; leading missing values stay missing. -/
def ffill (l : List (Option ℚ)) : List (Option ℚ) :=
  ffillGo none l

/-- The cell at position `i`, with an out-of-range access collapsed into the
missing marker. -/
def cellAt (l : List (Option ℚ)) (i : ℕ) : Option ℚ :=
  match l[i]? with
  | some (some v) => some v
  | _ => none

/-- The valid entry at position `j`, tagged with its position: `some (j, a)`
when row `j` exists and holds the non-missing value `a`. -/
def validAt (l : List (Option ℚ)) (j : ℕ) : Option (ℕ × ℚ) :=
  (cellAt l j).map (fun a => (j, a))

/-- The latest valid entry at or before position `i`, with its position. -/
def prevValid (l : List (Option ℚ)) (i : ℕ) : Option (ℕ × ℚ) :=
  ((List.range (i + 1)).filterMap (validAt l)).getLast?

/-- The earliest valid entry at or after position `i`, with its position. -/
def nextValid (l : List (Option ℚ)) (i : ℕ) : Option (ℕ × ℚ) :=
  ((List.range l.length).filterMap (fun j =>
    if i ≤ j then validAt l j else none)).head?

/-- One cell of `interpolate(method='linear')`: a valid cell is kept; a gap
between valid neighbours is filled positionally; a trailing gap is padded with
the last valid value (pandas default `limit_direction='forward'`); a leading
gap stays missing. -/
def interpCell (l : List (Option ℚ)) (i : ℕ) : Option ℚ :=
  match cellAt l i with
  | some v => some v
  | none =>
      match prevValid l i, nextValid l i with
      | some (j, a), some (k, b) =>
          some (a + (b - a) * (((i - j : ℕ) : ℚ) / ((k - j : ℕ) : ℚ)))
      | some (_, a), none => some a
      | none, _ => none

/-- Line 68: `interpolate(method='linear')` on one column — positional linear
interpolation. -/
def interpolate (l : List (Option ℚ)) : List (Option ℚ) :=
  (List.range l.length).map (interpCell l)

/-! ### Feature encoding (lines 72–83) -/

/-- The angle conversion of lines 72–73: degrees to radians via `θ * (2π/360)`. -/
noncomputable def windAngleRad (θ : ℝ) : ℝ :=
  θ * (2 * Real.pi / 360)

noncomputable def windDirSinVal (θ : ℝ) : ℝ :=
  Real.sin (windAngleRad θ)

noncomputable def windDirCosVal (θ : ℝ) : ℝ :=
  Real.cos (windAngleRad θ)

/-- Line 77: `1.0 if x in [0,1,2,3] else 0.0` (false for NaN). -/
def incrOf (x : Option ℚ) : ℚ :=
  if x ∈ ([0, 1, 2, 3] : List ℚ).map some then 1 else 0

/-- Line 78: `1.0 if x in [5,6,7,8] else 0.0` (false for NaN). -/
def decrOf (x : Option ℚ) : ℚ :=
  if x ∈ ([5, 6, 7, 8] : List ℚ).map some then 1 else 0

/-- Line 79: `1.0 if x == 4 else 0.0` (false for NaN). -/
def consOf (x : Option ℚ) : ℚ :=
  if x = some 4 then 1 else 0

/-- The triple of one-hot pressure-tendency indicators for one cell. -/
def ptIndicators (x : Option ℚ) : ℚ × ℚ × ℚ :=
  (incrOf x, decrOf x, consOf x)

/-- Exactly one of the three indicators is set. -/
def exactlyOne (p : ℚ × ℚ × ℚ) : Prop :=
  p = (1, 0, 0) ∨ p = (0, 1, 0) ∨ p = (0, 0, 1)

/-! ### Output path derivation (lines 86–87) -/

/-- Python `str.split(".")` on a character list: the maximal dot-free runs,
with empty runs kept (`"".split(".") == [""]`, `"a..b".split(".") == ["a","","b"]`). -/
def splitDots (l : List Char) : List (List Char) :=
  match l with
  | [] => [[]]
  | c :: rest =>
      let r := splitDots rest
      if c == '.' then [] :: r
      else
        match r with
        | [] => [[c]]
        | h :: t => (c :: h) :: t

/-- `filepath.split(".")` as a list of strings. -/
def pySplitDot (p : String) : List String :=
  (splitDots p.data).map (fun cs => String.mk cs)

/-- Lines 86–87: `file_name, extension = filepath.split(".")` followed by
writing `file_name + '_cleaned.csv'`.  The 2-tuple unpacking succeeds only
when the split yields exactly two parts (exactly one dot); otherwise Python
raises `ValueError` and no file is written (`none`). -/
def derive_output_path (p : String) : Option String :=
  match pySplitDot p with
  | [name, _ext] => some (name ++ "_cleaned.csv")
  | _ => none

/-! ### Column bookkeeping (lines 30–47, 74, 80) -/

def import_columns : List String :=
  ["DATE",
   "HOURLYVISIBILITY",
   "HOURLYDRYBULBTEMPF",
   "HOURLYWETBULBTEMPF",
   "HOURLYDewPointTempF",
   "HOURLYRelativeHumidity",
   "HOURLYWindSpeed",
   "HOURLYWindDirection",
   "HOURLYStationPressure",
   "HOURLYPressureTendency",
   "HOURLYSeaLevelPressure",
   "HOURLYPrecip",
   "HOURLYAltimeterSetting"]

/-- The columns of the written CSV: the imported ones minus the index column
`DATE`, minus the two dropped source columns, plus the five derived features
appended in source order. -/
def output_columns : List String :=
  (((import_columns.erase "DATE").erase "HOURLYWindDirection").erase
      "HOURLYPressureTendency") ++
    ["HOURLYWindDirectionSin", "HOURLYWindDirectionCos",
     "HOURLYPressureTendencyIncr", "HOURLYPressureTendencyDecr",
     "HOURLYPressureTendencyCons"]

/-! ### The table pipeline (`main`, lines 27–98) -/

/-- The parsed input table: the `DATE` column as timestamps (minutes), and the
twelve meteorological columns as string-or-missing cells, row-aligned with the
timestamps. -/
structure RawTable where
  times : List ℕ
  visibility : List (Option String)
  drybulb : List (Option String)
  wetbulb : List (Option String)
  dewpoint : List (Option String)
  humidity : List (Option String)
  windspeed : List (Option String)
  winddir : List (Option String)
  stationpressure : List (Option String)
  ptend : List (Option String)
  sealevel : List (Option String)
  precip : List (Option String)
  altimeter : List (Option String)

/-- The written table: the shifted hourly index, the surviving numeric
columns, and the five derived feature columns. -/
structure CleanedTable where
  times : List ℕ
  visibility : List (Option ℚ)
  drybulb : List (Option ℚ)
  wetbulb : List (Option ℚ)
  dewpoint : List (Option ℚ)
  humidity : List (Option ℚ)
  windspeed : List (Option ℚ)
  stationpressure : List (Option ℚ)
  sealevel : List (Option ℚ)
  precip : List (Option ℚ)
  altimeter : List (Option ℚ)
  windDirSin : List (Option ℝ)
  windDirCos : List (Option ℝ)
  ptIncr : List ℚ
  ptDecr : List ℚ
  ptCons : List ℚ

/-- Lines 50 and 57–58 for an ordinary column: `'*'`→NaN, then per-cell float
coercion. -/
def qcol (raw : List (Option String)) : List (Option ℚ) :=
  (raw.map replaceStar).map tryconvertCell

/-- Lines 50, 52–54 and 57–58 for `HOURLYPrecip`: `'*'`→NaN, `'T'`→`'0.00'`,
dual-dot→NaN, then per-cell float coercion. -/
def precipQcol (raw : List (Option String)) : List (Option ℚ) :=
  ((raw.map replaceStar).map normPrecip).map tryconvertCell

/-- Lines 64 and 68–69 for a column that receives no extra treatment:
resample-last, shift, linear interpolation, drop of the first row. -/
def genericFilled (ts : List ℕ) (col : List (Option ℚ)) : List (Option ℚ) :=
  (interpolate (shift1 (resampleCol ts col))).tail

/-- Lines 64 and 67–69 for `HOURLYPressureTendency`: resample-last, shift,
forward fill, linear interpolation (line 68 also touches this column), drop of
the first row. -/
def tendencyFilled (ts : List ℕ) (col : List (Option ℚ)) : List (Option ℚ) :=
  (interpolate (ffill (shift1 (resampleCol ts col)))).tail

/-- The visibility column additionally passes the range nulling of line 61
before resampling. -/
def visibilityFilled (ts : List ℕ) (col : List (Option ℚ)) : List (Option ℚ) :=
  genericFilled ts (visClip col)

/-- The whole cleaning transformation of lines 45–83 (everything between
reading the CSV and deriving the output path). -/
noncomputable def cleanTable (r : RawTable) : CleanedTable :=
  let ts := r.times
  let tendency := tendencyFilled ts (qcol r.ptend)
  let wind := genericFilled ts (qcol r.winddir)
  { times := (bucketList ts).tail
    visibility := visibilityFilled ts (qcol r.visibility)
    drybulb := genericFilled ts (qcol r.drybulb)
    wetbulb := genericFilled ts (qcol r.wetbulb)
    dewpoint := genericFilled ts (qcol r.dewpoint)
    humidity := genericFilled ts (qcol r.humidity)
    windspeed := genericFilled ts (qcol r.windspeed)
    stationpressure := genericFilled ts (qcol r.stationpressure)
    sealevel := genericFilled ts (qcol r.sealevel)
    precip := genericFilled ts (precipQcol r.precip)
    altimeter := genericFilled ts (qcol r.altimeter)
    windDirSin := wind.map (fun c => c.map (fun q => windDirSinVal (q : ℝ)))
    windDirCos := wind.map (fun c => c.map (fun q => windDirCosVal (q : ℝ)))
    ptIncr := tendency.map incrOf
    ptDecr := tendency.map decrOf
    ptCons := tendency.map consOf }

/-- What a successful run leaves behind: the path written, the table written
to it, and whatever was printed afterwards. -/
structure RunOutput where
  path : String
  table : CleanedTable
  logs : List String

/-- The statistics block of lines 89–98 (the derived numbers the script
prints; sizes in bytes are not modelled). -/
def verboseLogs (t : CleanedTable) : List String :=
  ["Data successfully cleaned, below are some stats:",
   "# of features: " ++ toString (output_columns.length),
   "# of observations: " ++ toString t.times.length]

/-- `main` (lines 27–98): clean the table, derive the output path (aborting
with `ValueError` when the dot-split does not unpack into two names), write
the CSV, then print statistics only when the verbose flag is set. -/
noncomputable def mainRun (filepath : String) (r : RawTable) (verbose : Bool) :
    Except Unit RunOutput :=
  let t := cleanTable r
  match derive_output_path filepath with
  | none => Except.error ()
  | some p =>
      Except.ok { path := p, table := t,
                  logs := if verbose then verboseLogs t else [] }

/-! ### Helper lemmas: where values of the pipeline stages come from -/

theorem mem_shift1 {l : List (Option ℚ)} {c : Option ℚ} (h : c ∈ shift1 l) :
    c = none ∨ c ∈ l := by
  cases l with
  | nil => simp [shift1] at h
  | cons x xs =>
      have he : shift1 (x :: xs) = none :: (x :: xs).dropLast := rfl
      rw [he] at h
      rcases List.mem_cons.1 h with h | h
      · exact Or.inl h
      · exact Or.inr (List.dropLast_subset _ h)

theorem bucketLast_mem {ts : List ℕ} {col : List (Option ℚ)} {b : ℕ} {q : ℚ}
    (h : bucketLast ts col b = some q) : some q ∈ col := by
  have hq : q ∈ ((ts.zip col).filter (fun p => bucketOf p.1 == b)).filterMap Prod.snd :=
    List.mem_of_mem_getLast? (Option.mem_def.mpr h)
  rcases List.mem_filterMap.1 hq with ⟨p, hp, hsnd⟩
  rcases p with ⟨t, o⟩
  have hmem : (t, o) ∈ ts.zip col := List.mem_of_mem_filter hp
  have ho : o = some q := hsnd
  rw [ho] at hmem
  exact (List.of_mem_zip hmem).2

theorem resampleCol_mem {ts : List ℕ} {col : List (Option ℚ)} {q : ℚ}
    (h : some q ∈ resampleCol ts col) : some q ∈ col := by
  rcases List.mem_map.1 h with ⟨b, _, hb⟩
  exact bucketLast_mem hb

theorem visClip_range {l : List (Option ℚ)} {q : ℚ}
    (h : some q ∈ visClip l) : 0 ≤ q ∧ q ≤ 10 := by
  rcases List.mem_map.1 h with ⟨c, _, hc⟩
  rcases c with _ | a
  · simp [visClipCell] at hc
  · rcases lt_or_le 10 a with h10 | h10
    · simp [visClipCell, h10] at hc
    · rcases lt_or_le a 0 with h0 | h0
      · simp [visClipCell, h0] at hc
      · have : a = q := by
          simpa [visClipCell, not_lt.2 h10, not_lt.2 h0] using hc
        subst this
        exact ⟨h0, h10⟩

theorem cellAt_eq_some {l : List (Option ℚ)} {i : ℕ} {v : ℚ} :
    cellAt l i = some v ↔ l[i]? = some (some v) := by
  rcases hg : l[i]? with _ | c
  · simp [cellAt, hg]
  · rcases c with _ | w
    · simp [cellAt, hg]
    · simp [cellAt, hg]

theorem validAt_eq_some {l : List (Option ℚ)} {x j : ℕ} {a : ℚ}
    (h : validAt l x = some (j, a)) : x = j ∧ l[x]? = some (some a) := by
  rcases hm : cellAt l x with _ | v
  · simp [validAt, hm] at h
  · simp only [validAt, hm, Option.map_some', Option.some.injEq,
      Prod.mk.injEq] at h
    exact ⟨h.1, cellAt_eq_some.1 (h.2 ▸ hm)⟩

theorem prevValid_spec {l : List (Option ℚ)} {i j : ℕ} {a : ℚ}
    (h : prevValid l i = some (j, a)) : j ≤ i ∧ l[j]? = some (some a) := by
  have hmem : (j, a) ∈ (List.range (i + 1)).filterMap (validAt l) :=
    List.mem_of_mem_getLast? (Option.mem_def.mpr h)
  rcases List.mem_filterMap.1 hmem with ⟨x, hx, hfx⟩
  have hxle : x ≤ i := Nat.lt_succ_iff.1 (List.mem_range.1 hx)
  rcases validAt_eq_some hfx with ⟨hxj, hg⟩
  subst hxj
  exact ⟨hxle, hg⟩

theorem nextValid_spec {l : List (Option ℚ)} {i k : ℕ} {b : ℚ}
    (h : nextValid l i = some (k, b)) : i ≤ k ∧ l[k]? = some (some b) := by
  have hmem : (k, b) ∈ (List.range l.length).filterMap (fun j =>
      if i ≤ j then validAt l j else none) :=
    List.mem_of_mem_head? (Option.mem_def.mpr h)
  rcases List.mem_filterMap.1 hmem with ⟨x, _, hfx⟩
  by_cases hix : i ≤ x
  · rw [if_pos hix] at hfx
    rcases validAt_eq_some hfx with ⟨hxk, hg⟩
    subst hxk
    exact ⟨hix, hg⟩
  · simp [hix] at hfx

theorem lerp_bound {a b t : ℚ} (ha0 : 0 ≤ a) (ha1 : a ≤ 10) (hb0 : 0 ≤ b)
    (hb1 : b ≤ 10) (ht0 : 0 ≤ t) (ht1 : t ≤ 1) :
    0 ≤ a + (b - a) * t ∧ a + (b - a) * t ≤ 10 := by
  constructor <;> nlinarith

theorem interpCell_range {l : List (Option ℚ)} {i : ℕ} {q : ℚ}
    (hl : ∀ x : ℚ, some x ∈ l → 0 ≤ x ∧ x ≤ 10)
    (h : interpCell l i = some q) : 0 ≤ q ∧ q ≤ 10 := by
  rcases hgi : cellAt l i with _ | v
  case some =>
    have hv : v = q := by simpa [interpCell, hgi] using h
    subst hv
    exact hl v (List.getElem?_mem (cellAt_eq_some.1 hgi))
  case none =>
    rw [interpCell, hgi] at h
    rcases hp : prevValid l i with _ | ⟨j, a⟩
    · simp [hp] at h
    · rcases hn : nextValid l i with _ | ⟨k, b⟩
      · have ha := (prevValid_spec hp).2
        have haq : a = q := by simpa [hp, hn] using h
        subst haq
        exact hl _ (List.getElem?_mem ha)
      · have hja := prevValid_spec hp
        have hkb := nextValid_spec hn
        have ha := hl a (List.getElem?_mem hja.2)
        have hb := hl b (List.getElem?_mem hkb.2)
        have hq : a + (b - a) * (((i - j : ℕ) : ℚ) / ((k - j : ℕ) : ℚ)) = q := by
          simpa [hp, hn] using h
        rcases Nat.eq_zero_or_pos (k - j) with hkj | hkj
        · rw [hkj] at hq
          simp at hq
          subst hq
          exact ha
        · have ht0 : (0 : ℚ) ≤ ((i - j : ℕ) : ℚ) / ((k - j : ℕ) : ℚ) :=
            div_nonneg (Nat.cast_nonneg _) (Nat.cast_nonneg _)
          have hik : i ≤ k := hkb.1
          have ht1 : ((i - j : ℕ) : ℚ) / ((k - j : ℕ) : ℚ) ≤ 1 := by
            rw [div_le_one (by exact_mod_cast hkj)]
            exact_mod_cast Nat.sub_le_sub_right hik j
          have := lerp_bound ha.1 ha.2 hb.1 hb.2 ht0 ht1
          rw [hq] at this
          exact this

theorem interpolate_range {l : List (Option ℚ)} {q : ℚ}
    (hl : ∀ x : ℚ, some x ∈ l → 0 ≤ x ∧ x ≤ 10)
    (h : some q ∈ interpolate l) : 0 ≤ q ∧ q ≤ 10 := by
  rcases List.mem_map.1 h with ⟨i, _, hi⟩
  exact interpCell_range hl hi

/-! ### Helper lemmas: forward fill and interpolation -/

theorem ffillGo_length (l : List (Option ℚ)) : ∀ p, (ffillGo p l).length = l.length := by
  induction l with
  | nil => intro p; rfl
  | cons c rest ih => intro p; cases c <;> simp [ffillGo, ih]

theorem ffillGo_ne_none (l : List (Option ℚ)) :
    ∀ (a : ℚ) (c : Option ℚ), c ∈ ffillGo (some a) l → c ≠ none := by
  induction l with
  | nil =>
      intro a c hc
      simp [ffillGo] at hc
  | cons x rest ih =>
      intro a c hc
      cases x with
      | none =>
          simp only [ffillGo] at hc
          rcases List.mem_cons.1 hc with h | h
          · subst h; simp
          · exact ih a c h
      | some v =>
          simp only [ffillGo] at hc
          rcases List.mem_cons.1 hc with h | h
          · subst h; simp
          · exact ih v c h

theorem ffillGo_mono (l : List (Option ℚ)) :
    ∀ (p : Option ℚ) (i j : ℕ) (a : ℚ), j ≤ i →
      (ffillGo p l)[j]? = some (some a) → (ffillGo p l)[i]? ≠ some none := by
  induction l with
  | nil =>
      intro p i j a hji hj
      simp [ffillGo] at hj
  | cons x rest ih =>
      intro p i j a hji hj hi
      cases x with
      | none =>
          simp only [ffillGo] at hj hi
          cases j with
          | zero =>
              have hp : p = some a := by simpa using hj
              cases i with
              | zero =>
                  rw [hp] at hi
                  simp at hi
              | succ m =>
                  have hm : (ffillGo p rest)[m]? = some none := by simpa using hi
                  subst hp
                  exact (ffillGo_ne_none rest a none (List.getElem?_mem hm)) rfl
          | succ n =>
              cases i with
              | zero => omega
              | succ m =>
                  exact ih p m n a (by omega) (by simpa using hj) (by simpa using hi)
      | some v =>
          simp only [ffillGo] at hj hi
          cases j with
          | zero =>
              cases i with
              | zero => simp at hi
              | succ m =>
                  have hm : (ffillGo (some v) rest)[m]? = some none := by simpa using hi
                  exact (ffillGo_ne_none rest v none (List.getElem?_mem hm)) rfl
          | succ n =>
              cases i with
              | zero => omega
              | succ m =>
                  exact ih (some v) m n a (by omega) (by simpa using hj) (by simpa using hi)

theorem interpolate_getElem? (l : List (Option ℚ)) (i : ℕ) :
    (interpolate l)[i]? = if i < l.length then some (interpCell l i) else none := by
  rw [interpolate, List.getElem?_map]
  by_cases h : i < l.length
  · rw [List.getElem?_range h, if_pos h]
    rfl
  · rw [if_neg h]
    have : (List.range l.length)[i]? = none :=
      List.getElem?_eq_none (by simpa using le_of_not_lt h)
    rw [this]
    rfl

theorem interpolate_ffill (l : List (Option ℚ)) :
    interpolate (ffill l) = ffill l := by
  apply List.ext_get?
  intro n
  rw [List.get?_eq_getElem?, List.get?_eq_getElem?, interpolate_getElem?]
  by_cases h : n < (ffill l).length
  · rw [if_pos h]
    rcases hg : (ffill l)[n]? with _ | c
    · exact absurd hg (by simp [List.getElem?_eq_none_iff]; omega)
    · rcases c with _ | v
      · have hc : cellAt (ffill l) n = none := by simp [cellAt, hg]
        rcases hp : prevValid (ffill l) n with _ | ⟨j, a⟩
        · simp [interpCell, hc, hp]
        · exfalso
          rcases prevValid_spec hp with ⟨hji, hja⟩
          exact ffillGo_mono l none n j a hji hja hg
      · have hc : cellAt (ffill l) n = some v := cellAt_eq_some.2 hg
        simp [interpCell, hc]
  · rw [if_neg h]
    symm
    exact List.getElem?_eq_none (le_of_not_lt h)

theorem ffill_leading (l : List (Option ℚ)) :
    ∀ i : ℕ, (∀ j, j ≤ i → l[j]? = some none) → (ffill l)[i]? = some none := by
  induction l with
  | nil =>
      intro i h
      have := h i le_rfl
      simp at this
  | cons x rest ih =>
      intro i h
      have hx : x = none := by
        have := h 0 (Nat.zero_le _)
        simpa using this
      subst hx
      have he : ffill (none :: rest) = none :: ffill rest := rfl
      rw [he]
      cases i with
      | zero => simp
      | succ m =>
          rw [List.getElem?_cons_succ]
          exact ih m (fun j hj => by
            have := h (j + 1) (by omega)
            simpa using this)

theorem interpolate_leading (l : List (Option ℚ)) (i : ℕ)
    (h : ∀ j, j ≤ i → l[j]? = some none) : (interpolate l)[i]? = some none := by
  have hi : i < l.length := (List.getElem?_eq_some.1 (h i le_rfl)).1
  rw [interpolate_getElem?, if_pos hi]
  have hc : cellAt l i = none := by simp [cellAt, h i le_rfl]
  rcases hp : prevValid l i with _ | ⟨j, a⟩
  · simp [interpCell, hc, hp]
  · exfalso
    rcases prevValid_spec hp with ⟨hji, hja⟩
    rw [h j hji] at hja
    simp at hja

/-! ### Helper lemmas: shifting and resampling -/

theorem shift1_length (l : List (Option ℚ)) : (shift1 l).length = l.length := by
  cases l with
  | nil => rfl
  | cons x xs =>
      have he : shift1 (x :: xs) = none :: (x :: xs).dropLast := rfl
      rw [he]
      simp

theorem shift1_tail (l : List (Option ℚ)) (h : l ≠ []) :
    (shift1 l).tail = l.dropLast := by
  cases l with
  | nil => exact absurd rfl h
  | cons x xs => rfl

theorem bucketList_ne_nil (ts : List ℕ) (h : ts ≠ []) : bucketList ts ≠ [] := by
  cases ts with
  | nil => exact absurd rfl h
  | cons t rest =>
      simp only [bucketList]
      intro hc
      rw [List.map_eq_nil_iff, List.range_eq_nil] at hc
      omega

/-! ### Claim theorems -/

/-- C1 (counterexample): the claim says that for an input path containing more
than one `.` the run still completes and writes an output file named from the
text before the first `.`.  On the input `"data.v2.csv"` the 2-tuple unpacking
of `split(".")` (line 86) receives three parts, raises `ValueError`, and no
output is written: the derivation yields `none`, not `some "data_cleaned.csv"`. -/
theorem output_path_multi_dot_aborts :
    derive_output_path "data.v2.csv" = none ∧
    derive_output_path "data.v2.csv" ≠ some ("data" ++ "_cleaned.csv") := by
  constructor
  · rfl
  · intro h
    exact Option.noConfusion h

/-- C1 (amended): the output path is `<text before the dot> + "_cleaned.csv"`
exactly when the input path splits on `.` into precisely two parts (exactly
one dot); for any other number of parts the tuple unpacking of line 86 raises
and the run aborts without writing a file. -/
theorem output_path_exactly_one_dot :
    (∀ p name ext : String, pySplitDot p = [name, ext] →
      derive_output_path p = some (name ++ "_cleaned.csv")) ∧
    (∀ p : String, (pySplitDot p).length ≠ 2 → derive_output_path p = none) := by
  constructor
  · intro p name ext h
    rw [derive_output_path, h]
  · intro p h
    rw [derive_output_path]
    rcases hs : pySplitDot p with _ | ⟨a, _ | ⟨b, _ | _⟩⟩ <;>
      simp_all

theorem output_path_exactly_one_dot_witness :
    derive_output_path "jfk_weather.csv" = some "jfk_weather_cleaned.csv" ∧
    derive_output_path "nodots" = none :=
  ⟨output_path_exactly_one_dot.1 "jfk_weather.csv" "jfk_weather" "csv" rfl,
   output_path_exactly_one_dot.2 "nodots" (by decide)⟩

/-- C2: every value present in the visibility column of the cleaned table lies
in `[0, 10]`; missing values are the only other possibility.  Out-of-range
readings are nulled before resampling (line 61), resampling and shifting only
move existing values, and positional linear interpolation of in-range
endpoints stays in range. -/
theorem visibility_in_bounds (r : RawTable) (q : ℚ)
    (h : some q ∈ (cleanTable r).visibility) : 0 ≤ q ∧ q ≤ 10 := by
  have hv : (cleanTable r).visibility =
      (interpolate (shift1 (resampleCol r.times (visClip (qcol r.visibility))))).tail := rfl
  rw [hv] at h
  have h1 : some q ∈ interpolate (shift1 (resampleCol r.times (visClip (qcol r.visibility)))) :=
    List.tail_subset _ h
  refine interpolate_range ?_ h1
  intro x hx
  rcases mem_shift1 hx with he | hm
  · exact absurd he (by simp)
  · exact visClip_range (resampleCol_mem hm)

theorem visibility_in_bounds_witness :
    0 ≤ (5 : ℚ) ∧ (5 : ℚ) ≤ 10 :=
  visibility_in_bounds
    { times := [10, 70], visibility := [some "5", some "7"],
      drybulb := [none, none], wetbulb := [none, none],
      dewpoint := [none, none], humidity := [none, none],
      windspeed := [none, none], winddir := [none, none],
      stationpressure := [none, none], ptend := [none, none],
      sealevel := [none, none], precip := [none, none],
      altimeter := [none, none] } 5 (by decide)

/-- C3: the numeric-coercion step is total: `tryconvert` returns exactly the
parse result of `np.float64` when the value parses, and the missing marker
when parsing raises; it never propagates the exception. -/
theorem tryconvert_total (v : String) :
    tryconvert v = (npFloat64 v).toOption ∧
    ((∃ q, npFloat64 v = Except.ok q ∧ tryconvert v = some q) ∨
     (npFloat64 v = Except.error () ∧ tryconvert v = none)) := by
  cases h : npFloat64 v with
  | ok q =>
      constructor
      · simp [tryconvert, h, Except.toOption]
      · exact Or.inl ⟨q, rfl, by simp [tryconvert, h]⟩
  | error e =>
      constructor
      · simp [tryconvert, h, Except.toOption]
      · exact Or.inr ⟨rfl, by simp [tryconvert, h]⟩

/-- C4: after forward fill, a pressure-tendency code that is an integer in
0–8 sets exactly one indicator: `Incr` for codes 0–3, `Decr` for codes 5–8,
`Cons` for code 4; a row whose code is still missing (a leading row that
forward fill could not reach) gets all three indicators equal to 0. -/
theorem pressure_tendency_onehot (c : ℚ)
    (hc : c ∈ ([0, 1, 2, 3, 4, 5, 6, 7, 8] : List ℚ)) :
    exactlyOne (ptIndicators (some c)) ∧
    (c ∈ ([0, 1, 2, 3] : List ℚ) → ptIndicators (some c) = (1, 0, 0)) ∧
    (c ∈ ([5, 6, 7, 8] : List ℚ) → ptIndicators (some c) = (0, 1, 0)) ∧
    (c = 4 → ptIndicators (some c) = (0, 0, 1)) ∧
    ptIndicators (none : Option ℚ) = (0, 0, 0) := by
  fin_cases hc <;> (unfold exactlyOne; decide)

theorem pressure_tendency_onehot_witness :
    ptIndicators (some 4) = (0, 0, 1) :=
  (pressure_tendency_onehot 4 (by decide)).2.2.2.1 rfl

/-- C5: for a non-empty input, resampling emits one row per hourly bucket
(the bucket's last available observation), shifting preserves the row count
while moving each value down one row, and dropping the first row leaves
exactly one row fewer than the resampled-and-shifted table; row `i` of the
output holds the value resampled for bucket `i`, i.e. the prior hour's last
reading relative to the output row's own (shifted) index position. -/
theorem resample_shift_drop (ts : List ℕ) (col : List (Option ℚ)) (i : ℕ)
    (h : ts ≠ []) (hi : i < (resampleCol ts col).length - 1) :
    resampleCol ts col ≠ [] ∧
    (shift1 (resampleCol ts col)).length = (resampleCol ts col).length ∧
    ((shift1 (resampleCol ts col)).tail).length =
      (shift1 (resampleCol ts col)).length - 1 ∧
    ((shift1 (resampleCol ts col)).tail)[i]? = (resampleCol ts col)[i]? ∧
    (resampleCol ts col)[i]? = ((bucketList ts)[i]?).map (bucketLast ts col) := by
  have hne : resampleCol ts col ≠ [] := fun hc =>
    bucketList_ne_nil ts h (List.map_eq_nil_iff.1 hc)
  refine ⟨hne, shift1_length _, ?_, ?_, ?_⟩
  · rw [List.length_tail]
  · rw [shift1_tail _ hne, List.getElem?_dropLast, if_pos hi]
  · rw [resampleCol, List.getElem?_map]

theorem resample_shift_drop_witness :
    ((shift1 (resampleCol [10, 50, 70] [some 1, some 2, some 3])).tail).length =
      (shift1 (resampleCol [10, 50, 70] [some 1, some 2, some 3])).length - 1 ∧
    ((shift1 (resampleCol [10, 50, 70] [some 1, some 2, some 3])).tail)[0]? =
      (resampleCol [10, 50, 70] [some 1, some 2, some 3])[0]? :=
  ⟨(resample_shift_drop [10, 50, 70] [some 1, some 2, some 3] 0
      (by decide) (by decide)).2.2.1,
   (resample_shift_drop [10, 50, 70] [some 1, some 2, some 3] 0
      (by decide) (by decide)).2.2.2.1⟩

/-- C6: precipitation normalization sends the literal token `T` to `0.00` and
any dual-decimal token to missing; consequently no normalized precipitation
cell is a literal `T` or contains more than one decimal point. -/
theorem precip_normalization :
    normPrecip (some "T") = some "0.00" ∧
    normPrecip (some "0.00.1") = none ∧
    ∀ (c : Option String) (s : String),
      normPrecip c = some s → countDots s ≤ 1 ∧ s ≠ "T" := by
  refine ⟨by decide, by decide, ?_⟩
  intro c s h
  rcases c with _ | x
  · simp [normPrecip, replaceT, dropDualDot] at h
  · by_cases hx : x = "T"
    · subst hx
      have he : normPrecip (some "T") = some "0.00" := by decide
      rw [he] at h
      have hs : s = "0.00" := (Option.some.inj h).symm
      subst hs
      exact ⟨by decide, by decide⟩
    · have he : replaceT (some x) = some x := by simp [replaceT, hx]
      rw [normPrecip, he] at h
      simp only [dropDualDot] at h
      by_cases hd : 1 < countDots x
      · rw [if_pos hd] at h
        exact absurd h (by simp)
      · rw [if_neg hd] at h
        have hs : x = s := Option.some.inj h
        subst hs
        exact ⟨le_of_not_lt hd, hx⟩

theorem precip_normalization_witness :
    countDots "0.04" ≤ 1 ∧ "0.04" ≠ "T" :=
  precip_normalization.2.2 (some "0.04") "0.04" (by decide)

/-- C7: the derived wind-direction features are the sine and cosine of the
angle converted to radians by `θ * (2π/360)`, so their squares sum to 1 for
every angle, the angles 370° and 10° produce identical feature pairs, and the
raw `HOURLYWindDirection` column is absent from the written columns. -/
theorem wind_direction_cyclical :
    (∀ θ : ℝ, windDirSinVal θ ^ 2 + windDirCosVal θ ^ 2 = 1) ∧
    (windDirSinVal 370 = windDirSinVal 10 ∧ windDirCosVal 370 = windDirCosVal 10) ∧
    "HOURLYWindDirection" ∉ output_columns := by
  have ha : windAngleRad 370 = windAngleRad 10 + 2 * Real.pi := by
    unfold windAngleRad; ring
  refine ⟨fun θ => Real.sin_sq_add_cos_sq _, ⟨?_, ?_⟩, by decide⟩
  · unfold windDirSinVal
    rw [ha, Real.sin_add_two_pi]
  · unfold windDirCosVal
    rw [ha, Real.cos_add_two_pi]

/-- C8: gap filling is asymmetric.  The tendency column's pipeline is forward
fill followed by the shared linear interpolation, but interpolation leaves a
forward-filled column unchanged, so tendency gaps are filled only by forward
propagation; every other column is filled by positional linear interpolation;
leading gaps that neither method can resolve stay missing in both. -/
theorem gap_fill_asymmetry (l : List (Option ℚ)) (i : ℕ)
    (hlead : ∀ j, j ≤ i → l[j]? = some none) :
    (∀ (ts : List ℕ) (col : List (Option ℚ)),
      tendencyFilled ts col = (ffill (shift1 (resampleCol ts col))).tail) ∧
    (∀ (ts : List ℕ) (col : List (Option ℚ)),
      genericFilled ts col = (interpolate (shift1 (resampleCol ts col))).tail) ∧
    (interpolate l)[i]? = some none ∧
    (ffill l)[i]? = some none := by
  refine ⟨fun ts col => ?_, fun ts col => rfl,
    interpolate_leading l i hlead, ffill_leading l i hlead⟩
  unfold tendencyFilled
  rw [interpolate_ffill]

theorem gap_fill_asymmetry_witness :
    (interpolate [none, some 2])[0]? = some none ∧
    (ffill [none, some 2])[0]? = some none :=
  ⟨(gap_fill_asymmetry [none, some 2] 0 (by decide)).2.2.1,
   (gap_fill_asymmetry [none, some 2] 0 (by decide)).2.2.2⟩

/-- C9: the verbose flag changes only what is printed after the write: runs
with the flag set and unset produce the same output path and the same cleaned
table (and abort in the same cases). -/
theorem verbose_noninterference (fp : String) (r : RawTable) :
    (mainRun fp r true).map (fun o => (o.path, o.table)) =
      (mainRun fp r false).map (fun o => (o.path, o.table)) := by
  unfold mainRun
  cases derive_output_path fp <;> rfl

theorem incrOf_some (c : ℚ) :
    incrOf (some c) = if c ∈ ([0, 1, 2, 3] : List ℚ) then 1 else 0 := by
  unfold incrOf
  by_cases h : c ∈ ([0, 1, 2, 3] : List ℚ)
  · rw [if_pos h, if_pos (List.mem_map_of_mem some h)]
  · rw [if_neg h, if_neg]
    intro hm
    rcases List.mem_map.1 hm with ⟨a, ha, hae⟩
    exact h (by rwa [Option.some.inj hae] at ha)

theorem decrOf_some (c : ℚ) :
    decrOf (some c) = if c ∈ ([5, 6, 7, 8] : List ℚ) then 1 else 0 := by
  unfold decrOf
  by_cases h : c ∈ ([5, 6, 7, 8] : List ℚ)
  · rw [if_pos h, if_pos (List.mem_map_of_mem some h)]
  · rw [if_neg h, if_neg]
    intro hm
    rcases List.mem_map.1 hm with ⟨a, ha, hae⟩
    exact h (by rwa [Option.some.inj hae] at ha)

/-- C10: for any pressure-tendency cell whatsoever — missing, fractional such
as 4.5, or out-of-domain such as 9 — at most one indicator is set: the triple
of indicators is one-hot or all-zero, because the three membership tests are
pairwise disjoint. -/
theorem pressure_tendency_mutex (x : Option ℚ) :
    exactlyOne (ptIndicators x) ∨ ptIndicators x = (0, 0, 0) := by
  rcases x with _ | c
  · right
    decide
  · unfold exactlyOne ptIndicators
    rw [incrOf_some, decrOf_some]
    by_cases h1 : c ∈ ([0, 1, 2, 3] : List ℚ)
    · by_cases h2 : c ∈ ([5, 6, 7, 8] : List ℚ)
      · exfalso
        fin_cases h1 <;> exact absurd h2 (by decide)
      · by_cases h3 : c = 4
        · exfalso
          subst h3
          exact absurd h1 (by decide)
        · left; left
          simp [h1, h2, consOf, h3]
    · by_cases h2 : c ∈ ([5, 6, 7, 8] : List ℚ)
      · by_cases h3 : c = 4
        · exfalso
          subst h3
          exact absurd h2 (by decide)
        · left; right; left
          simp [h1, h2, consOf, h3]
      · by_cases h3 : c = 4
        · left; right; right
          simp [h1, h2, consOf, h3]
        · right
          simp [h1, h2, consOf, h3]
